import Mathlib

/-!
Shallow embedding of `src/main/HokuyoUtils/scip/CoordinateConverter.ts`.

JavaScript numbers are modelled by `ℚ` (exact arithmetic); the external
`Math` library (`Math.PI`, `Math.cos`, `Math.sin`) is modelled by an
abstract parameter structure `JsMath`, since its values are external to
the repository. The mutable fields of the `CoordinateConverter` class
(`bunchBuffer`, `prevCoord`) become an explicit `ClusterState` threaded
through `bunch` and `calcBunchAvarage`; the readonly configuration
becomes `Config`.
-/

namespace SensorUtil

/-- A 2D coordinate, the `XY` tuple type of the source. -/
abbrev Point := ℚ × ℚ

/-- The four sensor mounting corners (`SensorPlacement` in the source). -/
inductive SensorPlacement where
  | topLeft
  | topRight
  | bottomLeft
  | bottomRight
deriving DecidableEq

/-- The external JavaScript `Math` library: `Math.PI`, `Math.cos`, `Math.sin`
as abstract data, since the repository does not define them. -/
structure JsMath where
  pi : ℚ
  cos : ℚ → ℚ
  sin : ℚ → ℚ

/-- The readonly configuration of a `CoordinateConverter` instance, after the
constructor has applied defaults (`CoordinateConverterOptions`). -/
structure Config where
  sensorPlacement : SensorPlacement
  sensorCoordinateFromCenter : Point
  projectionAreaSize : Point
  bunchEps : ℚ
  bunchPrecisionCount : ℕ

/-- The 2x2 rotation matrix record built by `calcSensorAxisRotationMatrix`. -/
structure RotationMatrix where
  a11 : ℚ
  a12 : ℚ
  a21 : ℚ
  a22 : ℚ

/-- `calcSensorAxisRotationMatrix`: placement selects the angle
(0, pi/2, pi, 3pi/2) and the matrix is (cos, -sin; sin, cos) of it. -/
def calcSensorAxisRotationMatrix (m : JsMath) (placement : SensorPlacement) : RotationMatrix :=
  let angle : ℚ :=
    match placement with
    | .bottomLeft => 0
    | .bottomRight => m.pi / 2
    | .topRight => m.pi
    | .topLeft => m.pi * (3 / 2)
  { a11 := m.cos angle, a12 := -(m.sin angle), a21 := m.sin angle, a22 := m.cos angle }

/-- The `sensorFov` field: `90 * (Math.PI / 180)`. -/
def sensorFov (m : JsMath) : ℚ := 90 * (m.pi / 180)

/-- The `convert` method: distance [mm] to meters, polar to cartesian via the
sample index, axis alignment by the placement matrix, then the sensor offset. -/
def convert (m : JsMath) (cfg : Config) (distance dataIndex datasLength : ℚ) : Point :=
  let meter := distance / 1000
  let angle := dataIndex / (datasLength - 1) * sensorFov m
  let localCoord : Point := (meter * m.cos angle, meter * m.sin angle)
  let mat := calcSensorAxisRotationMatrix m cfg.sensorPlacement
  let fixedAxisLocalCoord : Point :=
    (mat.a11 * localCoord.1 + mat.a12 * localCoord.2,
     mat.a21 * localCoord.1 + mat.a22 * localCoord.2)
  (cfg.sensorCoordinateFromCenter.1 + fixedAxisLocalCoord.1,
   cfg.sensorCoordinateFromCenter.2 + fixedAxisLocalCoord.2)

/-- The `normalize` method: divide each axis by half the projection extent. -/
def normalize (cfg : Config) (coord : Point) : Point :=
  (coord.1 / (cfg.projectionAreaSize.1 / 2), coord.2 / (cfg.projectionAreaSize.2 / 2))

/-- The `inProjectionArea` method: both normalized components in [-1, 1]. -/
def inProjectionArea (normCoord : Point) : Bool :=
  decide (-1 ≤ normCoord.1) && decide (normCoord.1 ≤ 1) &&
  decide (-1 ≤ normCoord.2) && decide (normCoord.2 ≤ 1)

/-- The mutable fields of the class: `bunchBuffer` and `prevCoord`. -/
structure ClusterState where
  bunchBuffer : List Point
  prevCoord : Point
deriving DecidableEq

/-- The field initializers: empty buffer, `prevCoord` set to
`[Number.MAX_SAFE_INTEGER, Number.MAX_SAFE_INTEGER]` (2^53 - 1 on each axis). -/
def initState : ClusterState :=
  { bunchBuffer := [], prevCoord := (9007199254740991, 9007199254740991) }

/-- The `dataPlace` argument of `bunch`. -/
inductive DataPlace where
  | first
  | middle
  | last
deriving DecidableEq

/-- The private `calcBunchAvarage` method (source spelling kept): when the
buffer holds at least `bunchPrecisionCount` points, sum the coordinates and
divide by the length; always clear the buffer. -/
def calcBunchAvarage (cfg : Config) (s : ClusterState) : Option Point × ClusterState :=
  let result : Option Point :=
    if cfg.bunchPrecisionCount ≤ s.bunchBuffer.length then
      let acc := s.bunchBuffer.foldl (fun (r : Point) coord => (r.1 + coord.1, r.2 + coord.2)) (0, 0)
      some (acc.1 / (s.bunchBuffer.length : ℚ), acc.2 / (s.bunchBuffer.length : ℚ))
    else none
  (result, { s with bunchBuffer := [] })

/-- The `bunch` method, returning the emitted centroid (or `none`) and the
updated mutable state. -/
def bunch (cfg : Config) (coord : Point) (dataPlace : DataPlace) (s : ClusterState) :
    Option Point × ClusterState :=
  if ¬ inProjectionArea (normalize cfg coord) then
    let s1 := { s with prevCoord := coord }
    if 0 < s1.bunchBuffer.length then calcBunchAvarage cfg s1 else (none, s1)
  else
    match dataPlace with
    | .first => (none, { bunchBuffer := [coord], prevCoord := coord })
    | .middle =>
      let step :=
        if 0 < s.bunchBuffer.length then
          let dx := |s.prevCoord.1 - coord.1|
          let dy := |s.prevCoord.2 - coord.2|
          if cfg.bunchEps < dx ∨ cfg.bunchEps < dy then calcBunchAvarage cfg s else (none, s)
        else (none, s)
      (step.1, { bunchBuffer := step.2.bunchBuffer ++ [coord], prevCoord := coord })
    | .last =>
      if 0 < s.bunchBuffer.length then calcBunchAvarage cfg s else (none, s)

/-- Runs `bunch` over a list of (point, place) pairs, collecting the
per-call results in order together with the final state. -/
def bunchRun (cfg : Config) (s : ClusterState) :
    List (Point × DataPlace) → List (Option Point) × ClusterState
  | [] => ([], s)
  | (coord, dp) :: rest =>
    let step := bunch cfg coord dp s
    let next := bunchRun cfg step.2 rest
    (step.1 :: next.1, next.2)

/-- The flush result as a function of the buffer contents alone: the
precision rule of `calcBunchAvarage` with the sum written as a list sum. -/
def bunchAverageOf (cfg : Config) (buf : List Point) : Option Point :=
  if cfg.bunchPrecisionCount ≤ buf.length then
    some ((buf.map Prod.fst).sum / (buf.length : ℚ), (buf.map Prod.snd).sum / (buf.length : ℚ))
  else none

theorem foldl_sum_pair (l : List Point) (p : Point) :
    l.foldl (fun (r : Point) coord => (r.1 + coord.1, r.2 + coord.2)) p
      = (p.1 + (l.map Prod.fst).sum, p.2 + (l.map Prod.snd).sum) := by
  induction l generalizing p with
  | nil => simp
  | cons x xs ih => simp [ih, add_assoc]

theorem calcBunchAvarage_fst (cfg : Config) (s : ClusterState) :
    (calcBunchAvarage cfg s).1 = bunchAverageOf cfg s.bunchBuffer := by
  simp only [calcBunchAvarage, bunchAverageOf, foldl_sum_pair, Prod.fst_zero, Prod.snd_zero,
    zero_add]

theorem calcBunchAvarage_snd (cfg : Config) (s : ClusterState) :
    (calcBunchAvarage cfg s).2 = { s with bunchBuffer := [] } := rfl

/-- A concrete configuration used by witnesses: 2m x 2m projection area,
the default eps 0.05 and precision count 3. -/
def cfgEx : Config :=
  { sensorPlacement := .bottomLeft
    sensorCoordinateFromCenter := (0, 0)
    projectionAreaSize := (2, 2)
    bunchEps := 1 / 20
    bunchPrecisionCount := 3 }

/-- A concrete cluster state used by witnesses: three buffered points at the
origin, last-processed point at the origin. -/
def stateEx3 : ClusterState :=
  { bunchBuffer := [(0, 0), (0, 0), (0, 0)], prevCoord := (0, 0) }

/-- C5: a flush via `calcBunchAvarage` returns the per-axis arithmetic mean of
the buffered points when the buffer length reaches `bunchPrecisionCount`, and
`none` otherwise; in both cases the buffer is empty afterwards. -/
theorem C5_calcBunchAvarage_mean (cfg : Config) (s : ClusterState) :
    (calcBunchAvarage cfg s).1
        = (if cfg.bunchPrecisionCount ≤ s.bunchBuffer.length then
            some ((s.bunchBuffer.map Prod.fst).sum / (s.bunchBuffer.length : ℚ),
                  (s.bunchBuffer.map Prod.snd).sum / (s.bunchBuffer.length : ℚ))
          else none)
      ∧ (calcBunchAvarage cfg s).2.bunchBuffer = [] := by
  refine ⟨?_, rfl⟩
  rw [calcBunchAvarage_fst]
  rfl

/-- C6: a `first` call with an in-area point returns `none`, resets the buffer
to exactly the argument point and sets the last-processed point to it,
whatever the prior state held. -/
theorem C6_first_resets (cfg : Config) (c : Point) (s : ClusterState)
    (hin : inProjectionArea (normalize cfg c) = true) :
    bunch cfg c .first s = (none, { bunchBuffer := [c], prevCoord := c }) := by
  simp [bunch, hin]

/-- Witness for C6 at a concrete in-area point and a non-empty prior buffer. -/
theorem C6_first_resets_witness :
    bunch cfgEx (0, 0) .first stateEx3
      = (none, { bunchBuffer := [(0, 0)], prevCoord := (0, 0) }) :=
  C6_first_resets cfgEx (0, 0) stateEx3 (by norm_num [inProjectionArea, normalize, cfgEx])

/-- The `convert` method as a state transformer over the mutable fields: its
body reads only readonly fields, so the state passes through unchanged. -/
def convertM (m : JsMath) (cfg : Config) (distance dataIndex datasLength : ℚ)
    (s : ClusterState) : Point × ClusterState :=
  (convert m cfg distance dataIndex datasLength, s)

/-- The `normalize` method as a state transformer over the mutable fields. -/
def normalizeM (cfg : Config) (coord : Point) (s : ClusterState) : Point × ClusterState :=
  (normalize cfg coord, s)

/-- C9: `convert` and `normalize` are pure: for a fixed configuration their
results agree across any two cluster states (so interleaved `bunch` calls
cannot affect them) and they leave the cluster state unchanged. -/
theorem C9_convert_normalize_pure (m : JsMath) (cfg : Config) (d i n : ℚ) (p : Point)
    (s₁ s₂ : ClusterState) :
    (convertM m cfg d i n s₁).1 = (convertM m cfg d i n s₂).1
      ∧ (convertM m cfg d i n s₁).2 = s₁
      ∧ (normalizeM cfg p s₁).1 = (normalizeM cfg p s₂).1
      ∧ (normalizeM cfg p s₁).2 = s₁ :=
  ⟨rfl, rfl, rfl, rfl⟩

/-- Modelled from the spec: the spec asks for the initial last-processed point
to be an explicit optional none sentinel; the class in the source has no such
optional field. -/
def specInitialPrevCoord : Option Point := none

/-- C7 counterexample: the freshly constructed state initializes the
last-processed point to the numeric magic value
`[Number.MAX_SAFE_INTEGER, Number.MAX_SAFE_INTEGER]`, which is not the none
sentinel the claim asserts. -/
theorem C7_counterexample :
    initState.prevCoord = ((9007199254740991 : ℚ), (9007199254740991 : ℚ))
      ∧ some initState.prevCoord ≠ specInitialPrevCoord := by
  exact ⟨rfl, by simp [specInitialPrevCoord]⟩

/-- C7 amended: in the initial cluster state the last-processed point is the
numeric sentinel 2^53 - 1 (Number.MAX_SAFE_INTEGER) on both axes, not an
optional empty value. -/
theorem C7_amended_initial_prevCoord :
    initState.prevCoord = ((2 ^ 53 - 1 : ℚ), (2 ^ 53 - 1 : ℚ)) := by
  norm_num [initState]

/-- C2 counterexample: an in-area `last` call leaves the last-processed point
untouched: from the initial state, `bunch (0,0) last` keeps the sentinel value
instead of recording the argument point. -/
theorem C2_counterexample :
    (bunch cfgEx (0, 0) .last initState).2.prevCoord ≠ (0, 0) := by
  norm_num [bunch, normalize, inProjectionArea, cfgEx, initState]

/-- C2 amended: every `bunch` call updates the stored last-processed point to
the argument point, except an in-area `last` call, which leaves it unchanged. -/
theorem C2_amended_prevCoord (cfg : Config) (coord : Point) (dp : DataPlace)
    (s : ClusterState) :
    (bunch cfg coord dp s).2.prevCoord
      = if inProjectionArea (normalize cfg coord) = true ∧ dp = .last then s.prevCoord
        else coord := by
  by_cases hin : inProjectionArea (normalize cfg coord) = true
  · cases dp
    · simp [bunch, hin]
    · simp [bunch, hin]
    · simp [bunch, hin]
      split <;> simp [calcBunchAvarage]
  · simp only [bunch, hin]
    simp only [Bool.not_eq_true] at hin
    simp [hin]
    split <;> simp [calcBunchAvarage]

theorem bunch_first_eq (cfg : Config) (c : Point) (s : ClusterState)
    (hin : inProjectionArea (normalize cfg c) = true) :
    bunch cfg c .first s = (none, { bunchBuffer := [c], prevCoord := c }) := by
  simp [bunch, hin]

theorem bunch_middle_append (cfg : Config) (c : Point) (s : ClusterState)
    (hin : inProjectionArea (normalize cfg c) = true)
    (hd : ¬ (cfg.bunchEps < |s.prevCoord.1 - c.1| ∨ cfg.bunchEps < |s.prevCoord.2 - c.2|)) :
    bunch cfg c .middle s = (none, { bunchBuffer := s.bunchBuffer ++ [c], prevCoord := c }) := by
  by_cases hb : 0 < s.bunchBuffer.length <;> simp [bunch, hin, hb, hd]

theorem bunch_middle_flush (cfg : Config) (c : Point) (s : ClusterState)
    (hin : inProjectionArea (normalize cfg c) = true)
    (hb : 0 < s.bunchBuffer.length)
    (hd : cfg.bunchEps < |s.prevCoord.1 - c.1| ∨ cfg.bunchEps < |s.prevCoord.2 - c.2|) :
    bunch cfg c .middle s
      = (bunchAverageOf cfg s.bunchBuffer, { bunchBuffer := [c], prevCoord := c }) := by
  simp [bunch, hin, hb, hd, calcBunchAvarage, bunchAverageOf, foldl_sum_pair]

theorem bunch_last_eq (cfg : Config) (c : Point) (s : ClusterState)
    (hin : inProjectionArea (normalize cfg c) = true)
    (hb : 0 < s.bunchBuffer.length) :
    bunch cfg c .last s = calcBunchAvarage cfg s := by
  simp [bunch, hin, hb]

/-- C3: an in-area `middle` point with a non-empty buffer and an axis delta
from the last-processed point above eps returns the flush of the prior buffer
(the triggering point not included in it) and leaves the buffer holding
exactly the triggering point; otherwise the point is appended and `none`
returned. -/
theorem C3_middle_case (cfg : Config) (c : Point) (s : ClusterState)
    (hin : inProjectionArea (normalize cfg c) = true) :
    if 0 < s.bunchBuffer.length
        ∧ (cfg.bunchEps < |s.prevCoord.1 - c.1| ∨ cfg.bunchEps < |s.prevCoord.2 - c.2|) then
      (bunch cfg c .middle s).1 = bunchAverageOf cfg s.bunchBuffer
        ∧ (bunch cfg c .middle s).2.bunchBuffer = [c]
    else
      (bunch cfg c .middle s).1 = none
        ∧ (bunch cfg c .middle s).2.bunchBuffer = s.bunchBuffer ++ [c] := by
  by_cases hb : 0 < s.bunchBuffer.length
  · by_cases hd : cfg.bunchEps < |s.prevCoord.1 - c.1| ∨ cfg.bunchEps < |s.prevCoord.2 - c.2|
    · rw [if_pos ⟨hb, hd⟩, bunch_middle_flush cfg c s hin hb hd]
      exact ⟨rfl, rfl⟩
    · rw [if_neg (by tauto), bunch_middle_append cfg c s hin hd]
      exact ⟨rfl, rfl⟩
  · rw [if_neg (by tauto)]
    have hb0 : s.bunchBuffer = [] := by simpa using hb
    simp [bunch, hin, hb0]

/-- Witness for C3 in the flush case: three buffered points at the origin and
a triggering point 0.1 away emit the centroid (0,0) and restart the buffer
with the triggering point. -/
theorem C3_middle_case_witness :
    (bunch cfgEx (1 / 10, 0) .middle stateEx3).1 = some (0, 0)
      ∧ (bunch cfgEx (1 / 10, 0) .middle stateEx3).2.bunchBuffer = [(1 / 10, 0)] := by
  have h := C3_middle_case cfgEx (1 / 10, 0) stateEx3
    (by norm_num [inProjectionArea, normalize, cfgEx])
  rw [if_pos] at h
  · refine ⟨h.1.trans ?_, h.2⟩
    norm_num [bunchAverageOf, cfgEx, stateEx3]
  · constructor
    · norm_num [stateEx3]
    · norm_num [stateEx3, cfgEx, abs_of_pos]

/-- C4: a call whose point is out of the projection area never buffers the
point; it flushes a non-empty buffer (precision rule on the pre-call buffer)
and returns that result, or returns `none` on an empty buffer, leaving the
buffer empty either way. -/
theorem C4_out_of_area (cfg : Config) (c : Point) (dp : DataPlace) (s : ClusterState)
    (hout : inProjectionArea (normalize cfg c) = false) :
    (bunch cfg c dp s).1
        = (if 0 < s.bunchBuffer.length then bunchAverageOf cfg s.bunchBuffer else none)
      ∧ (bunch cfg c dp s).2.bunchBuffer = [] := by
  have hout2 : ¬ inProjectionArea (normalize cfg c) = true := by simp [hout]
  by_cases hb : 0 < s.bunchBuffer.length
  · simp [bunch, hout2, hb, calcBunchAvarage, bunchAverageOf, foldl_sum_pair]
  · simp [bunch, hout2, hb]
    simp at hb
    simp [hb]

/-- Witness for C4: the out-of-area point (5,5) flushes the three buffered
origin points into the centroid (0,0) and leaves the buffer empty. -/
theorem C4_out_of_area_witness :
    (bunch cfgEx (5, 5) .middle stateEx3).1 = some (0, 0)
      ∧ (bunch cfgEx (5, 5) .middle stateEx3).2.bunchBuffer = [] := by
  have h := C4_out_of_area cfgEx (5, 5) .middle stateEx3
    (by norm_num [inProjectionArea, normalize, cfgEx])
  refine ⟨h.1.trans ?_, h.2⟩
  norm_num [bunchAverageOf, cfgEx, stateEx3]

theorem inArea_iff_abs (cfg : Config) (hw : 0 < cfg.projectionAreaSize.1)
    (hh : 0 < cfg.projectionAreaSize.2) (p : Point) :
    inProjectionArea (normalize cfg p) = true
      ↔ |p.1| ≤ cfg.projectionAreaSize.1 / 2 ∧ |p.2| ≤ cfg.projectionAreaSize.2 / 2 := by
  have hw2 : 0 < cfg.projectionAreaSize.1 / 2 := half_pos hw
  have hh2 : 0 < cfg.projectionAreaSize.2 / 2 := half_pos hh
  simp only [inProjectionArea, normalize, Bool.and_eq_true, decide_eq_true_eq]
  rw [le_div_iff₀ hw2, le_div_iff₀ hh2, div_le_one hw2, div_le_one hh2, neg_one_mul, neg_one_mul,
    abs_le, abs_le]
  tauto

/-- C8: for a positive projection area, a point passes
`inProjectionArea(normalize(p))` exactly when each coordinate is within half
the corresponding projection extent, bounds inclusive. -/
theorem C8_in_area_iff (cfg : Config) (hw : 0 < cfg.projectionAreaSize.1)
    (hh : 0 < cfg.projectionAreaSize.2) (p : Point) :
    inProjectionArea (normalize cfg p) = true
      ↔ |p.1| ≤ cfg.projectionAreaSize.1 / 2 ∧ |p.2| ≤ cfg.projectionAreaSize.2 / 2 :=
  inArea_iff_abs cfg hw hh p

/-- Witness for C8 at the concrete configuration and the origin. -/
theorem C8_in_area_iff_witness :
    inProjectionArea (normalize cfgEx (0, 0)) = true
      ↔ |(0 : ℚ)| ≤ cfgEx.projectionAreaSize.1 / 2
          ∧ |(0 : ℚ)| ≤ cfgEx.projectionAreaSize.2 / 2 :=
  C8_in_area_iff cfgEx (by norm_num [cfgEx]) (by norm_num [cfgEx]) (0, 0)

/-- C1 counterexample: with precision count 5 (allowed by the claim) a sweep
of five identical in-area origin points tagged first/middle/middle/middle/last
returns `none` on every call, the last included, because the `last` point is
never appended and the buffer holds only 4 points at the flush; and with
precision count 4, a sweep whose fifth point is (1/100, 0) (all deltas below
eps 1/20) emits (0, 0) at the `last` call, which differs from the mean of all
5 points (1/500, 0): the centroid omits the `last` point. -/
theorem C1_counterexample :
    ({ cfgEx with bunchPrecisionCount := 5 } : Config).bunchPrecisionCount ≤ 5
      ∧ (bunchRun { cfgEx with bunchPrecisionCount := 5 } initState
            [((0, 0), .first), ((0, 0), .middle), ((0, 0), .middle), ((0, 0), .middle),
              ((0, 0), .last)]).1
          = [none, none, none, none, none]
      ∧ (bunchRun { cfgEx with bunchPrecisionCount := 4 } initState
            [((0, 0), .first), ((0, 0), .middle), ((0, 0), .middle), ((0, 0), .middle),
              ((1 / 100, 0), .last)]).1
          = [none, none, none, none, some (0, 0)]
      ∧ some ((0 : ℚ), (0 : ℚ))
          ≠ some ((0 + 0 + 0 + 0 + 1 / 100 : ℚ) / 5, (0 + 0 + 0 + 0 + 0 : ℚ) / 5) := by
  refine ⟨by norm_num [cfgEx], ?_, ?_, by norm_num [Prod.ext_iff]⟩
  · norm_num [bunchRun, bunch, normalize, inProjectionArea, calcBunchAvarage, cfgEx, initState]
  · norm_num [bunchRun, bunch, normalize, inProjectionArea, calcBunchAvarage, cfgEx, initState]

/-- C1 amended: for precision count at most 4, a 5-sample sweep of in-area
points with pairwise per-axis deltas below eps tagged
first/middle/middle/middle/last returns `none` on the first four calls and, at
the `last` call, the per-axis arithmetic mean of the first four points (the
`last` point itself is not part of the centroid). -/
theorem C1_amended_sweep5 (cfg : Config) (p1 p2 p3 p4 p5 : Point)
    (hpc : cfg.bunchPrecisionCount ≤ 4)
    (hin : ∀ p ∈ [p1, p2, p3, p4, p5], inProjectionArea (normalize cfg p) = true)
    (hd : ∀ p ∈ [p1, p2, p3, p4, p5], ∀ q ∈ [p1, p2, p3, p4, p5],
        |p.1 - q.1| < cfg.bunchEps ∧ |p.2 - q.2| < cfg.bunchEps)
    (s : ClusterState) :
    (bunchRun cfg s
        [(p1, .first), (p2, .middle), (p3, .middle), (p4, .middle), (p5, .last)]).1
      = [none, none, none, none,
          some ((p1.1 + p2.1 + p3.1 + p4.1) / 4, (p1.2 + p2.2 + p3.2 + p4.2) / 4)] := by
  have mem1 : p1 ∈ [p1, p2, p3, p4, p5] := by simp
  have mem2 : p2 ∈ [p1, p2, p3, p4, p5] := by simp
  have mem3 : p3 ∈ [p1, p2, p3, p4, p5] := by simp
  have mem4 : p4 ∈ [p1, p2, p3, p4, p5] := by simp
  have mem5 : p5 ∈ [p1, p2, p3, p4, p5] := by simp
  have nd : ∀ a ∈ [p1, p2, p3, p4, p5], ∀ b ∈ [p1, p2, p3, p4, p5],
      ¬ (cfg.bunchEps < |a.1 - b.1| ∨ cfg.bunchEps < |a.2 - b.2|) := by
    intro a ha b hb
    rcases hd a ha b hb with ⟨hx, hy⟩
    push_neg
    exact ⟨le_of_lt hx, le_of_lt hy⟩
  have h1 : bunch cfg p1 .first s = (none, { bunchBuffer := [p1], prevCoord := p1 }) :=
    bunch_first_eq cfg p1 s (hin p1 mem1)
  have h2 : bunch cfg p2 .middle { bunchBuffer := [p1], prevCoord := p1 }
      = (none, { bunchBuffer := [p1, p2], prevCoord := p2 }) := by
    rw [bunch_middle_append cfg p2 { bunchBuffer := [p1], prevCoord := p1 }
      (hin p2 mem2) (nd p1 mem1 p2 mem2)]
    rfl
  have h3 : bunch cfg p3 .middle { bunchBuffer := [p1, p2], prevCoord := p2 }
      = (none, { bunchBuffer := [p1, p2, p3], prevCoord := p3 }) := by
    rw [bunch_middle_append cfg p3 { bunchBuffer := [p1, p2], prevCoord := p2 }
      (hin p3 mem3) (nd p2 mem2 p3 mem3)]
    rfl
  have h4 : bunch cfg p4 .middle { bunchBuffer := [p1, p2, p3], prevCoord := p3 }
      = (none, { bunchBuffer := [p1, p2, p3, p4], prevCoord := p4 }) := by
    rw [bunch_middle_append cfg p4 { bunchBuffer := [p1, p2, p3], prevCoord := p3 }
      (hin p4 mem4) (nd p3 mem3 p4 mem4)]
    rfl
  have h5 : (bunch cfg p5 .last { bunchBuffer := [p1, p2, p3, p4], prevCoord := p4 }).1
      = some ((p1.1 + p2.1 + p3.1 + p4.1) / 4, (p1.2 + p2.2 + p3.2 + p4.2) / 4) := by
    rw [bunch_last_eq cfg p5 { bunchBuffer := [p1, p2, p3, p4], prevCoord := p4 }
      (hin p5 mem5) (by simp)]
    simp [calcBunchAvarage, foldl_sum_pair, hpc, add_assoc]
  simp only [bunchRun, h1, h2, h3, h4]
  simp [h5]

/-- Witness for C1 amended at five origin points with the default
configuration. -/
theorem C1_amended_sweep5_witness :
    (bunchRun cfgEx initState
        [(((0 : ℚ), (0 : ℚ)), .first), (((0 : ℚ), (0 : ℚ)), .middle),
          (((0 : ℚ), (0 : ℚ)), .middle), (((0 : ℚ), (0 : ℚ)), .middle),
          (((0 : ℚ), (0 : ℚ)), .last)]).1
      = [none, none, none, none,
          some (((0 : ℚ) + 0 + 0 + 0) / 4, ((0 : ℚ) + 0 + 0 + 0) / 4)] :=
  C1_amended_sweep5 cfgEx (0, 0) (0, 0) (0, 0) (0, 0) (0, 0)
    (by norm_num [cfgEx])
    (by
      intro p hp
      simp at hp
      subst hp
      norm_num [inProjectionArea, normalize, cfgEx])
    (by
      intro p hp q hq
      simp at hp hq
      subst hp
      subst hq
      norm_num [cfgEx])
    initState

theorem bunch_middle_empty (cfg : Config) (c : Point) (s : ClusterState)
    (hin : inProjectionArea (normalize cfg c) = true)
    (hb0 : s.bunchBuffer = []) :
    bunch cfg c .middle s = (none, { bunchBuffer := [c], prevCoord := c }) := by
  simp [bunch, hin, hb0]

theorem abs_list_sum_le (l : List ℚ) (b : ℚ) (h : ∀ x ∈ l, |x| ≤ b) :
    |l.sum| ≤ (l.length : ℚ) * b := by
  induction l with
  | nil => simp
  | cons x xs ih =>
    have hx : |x| ≤ b := h x (by simp)
    have hxs : |xs.sum| ≤ (xs.length : ℚ) * b := ih (fun y hy => h y (by simp [hy]))
    calc |(x :: xs).sum| = |x + xs.sum| := by simp
      _ ≤ |x| + |xs.sum| := abs_add x xs.sum
      _ ≤ b + (xs.length : ℚ) * b := add_le_add hx hxs
      _ = ((x :: xs).length : ℚ) * b := by push_cast [List.length_cons]; ring

theorem mean_abs_le (l : List ℚ) (b : ℚ) (hl : 0 < l.length) (h : ∀ x ∈ l, |x| ≤ b) :
    |l.sum / (l.length : ℚ)| ≤ b := by
  have hn : (0 : ℚ) < (l.length : ℚ) := by exact_mod_cast hl
  rw [abs_div, abs_of_pos hn, div_le_iff₀ hn]
  calc |l.sum| ≤ (l.length : ℚ) * b := abs_list_sum_le l b h
    _ = b * (l.length : ℚ) := mul_comm _ _

theorem bunchAverageOf_in_area (cfg : Config) (hw : 0 < cfg.projectionAreaSize.1)
    (hh : 0 < cfg.projectionAreaSize.2) (hpc : 1 ≤ cfg.bunchPrecisionCount)
    (buf : List Point) (hbuf : ∀ p ∈ buf, inProjectionArea (normalize cfg p) = true)
    (q : Point) (hq : bunchAverageOf cfg buf = some q) :
    inProjectionArea (normalize cfg q) = true := by
  unfold bunchAverageOf at hq
  split at hq
  case isTrue hlen =>
    have hl : 0 < buf.length := lt_of_lt_of_le hpc hlen
    rw [Option.some.injEq] at hq
    subst hq
    rw [inArea_iff_abs cfg hw hh]
    constructor
    · have := mean_abs_le (buf.map Prod.fst) (cfg.projectionAreaSize.1 / 2)
        (by simpa using hl)
        (fun x hx => by
          obtain ⟨p, hp, rfl⟩ := List.mem_map.mp hx
          exact ((inArea_iff_abs cfg hw hh p).mp (hbuf p hp)).1)
      simpa using this
    · have := mean_abs_le (buf.map Prod.snd) (cfg.projectionAreaSize.2 / 2)
        (by simpa using hl)
        (fun x hx => by
          obtain ⟨p, hp, rfl⟩ := List.mem_map.mp hx
          exact ((inArea_iff_abs cfg hw hh p).mp (hbuf p hp)).2)
      simpa using this
  case isFalse => exact absurd hq (by simp)

theorem bunch_preserves_in_area (cfg : Config) (c : Point) (dp : DataPlace)
    (s : ClusterState) (hbuf : ∀ p ∈ s.bunchBuffer, inProjectionArea (normalize cfg p) = true) :
    ∀ p ∈ (bunch cfg c dp s).2.bunchBuffer, inProjectionArea (normalize cfg p) = true := by
  by_cases hin : inProjectionArea (normalize cfg c) = true
  · cases dp
    · rw [bunch_first_eq cfg c s hin]
      simpa using hin
    · by_cases hb : 0 < s.bunchBuffer.length
      · by_cases hd : cfg.bunchEps < |s.prevCoord.1 - c.1| ∨ cfg.bunchEps < |s.prevCoord.2 - c.2|
        · rw [bunch_middle_flush cfg c s hin hb hd]
          simpa using hin
        · rw [bunch_middle_append cfg c s hin hd]
          intro p hp
          simp only [List.mem_append, List.mem_singleton] at hp
          rcases hp with hp | hp
          · exact hbuf p hp
          · subst hp; exact hin
      · rw [bunch_middle_empty cfg c s hin (by simpa using hb)]
        simpa using hin
    · by_cases hb : 0 < s.bunchBuffer.length
      · rw [bunch_last_eq cfg c s hin hb, calcBunchAvarage_snd]
        simp
      · have hlast : bunch cfg c .last s = (none, s) := by simp [bunch, hin, hb]
        rw [hlast]
        exact hbuf
  · have hfalse : inProjectionArea (normalize cfg c) = false := by simpa using hin
    by_cases hb : 0 < s.bunchBuffer.length
    · have hemp : (bunch cfg c dp s).2.bunchBuffer = [] := by
        simp [bunch, hfalse, hb, calcBunchAvarage]
      simp [hemp]
    · have hpass : bunch cfg c dp s = (none, { s with prevCoord := c }) := by
        simp [bunch, hfalse, hb]
      rw [hpass]
      exact hbuf

theorem bunch_emit_in_area (cfg : Config) (hw : 0 < cfg.projectionAreaSize.1)
    (hh : 0 < cfg.projectionAreaSize.2) (hpc : 1 ≤ cfg.bunchPrecisionCount)
    (c : Point) (dp : DataPlace) (s : ClusterState)
    (hbuf : ∀ p ∈ s.bunchBuffer, inProjectionArea (normalize cfg p) = true)
    (q : Point) (hq : (bunch cfg c dp s).1 = some q) :
    inProjectionArea (normalize cfg q) = true := by
  by_cases hin : inProjectionArea (normalize cfg c) = true
  · cases dp
    · rw [bunch_first_eq cfg c s hin] at hq
      exact absurd hq (by simp)
    · by_cases hb : 0 < s.bunchBuffer.length
      · by_cases hd : cfg.bunchEps < |s.prevCoord.1 - c.1| ∨ cfg.bunchEps < |s.prevCoord.2 - c.2|
        · rw [bunch_middle_flush cfg c s hin hb hd] at hq
          exact bunchAverageOf_in_area cfg hw hh hpc s.bunchBuffer hbuf q hq
        · rw [bunch_middle_append cfg c s hin hd] at hq
          exact absurd hq (by simp)
      · rw [bunch_middle_empty cfg c s hin (by simpa using hb)] at hq
        exact absurd hq (by simp)
    · by_cases hb : 0 < s.bunchBuffer.length
      · rw [bunch_last_eq cfg c s hin hb, calcBunchAvarage_fst] at hq
        exact bunchAverageOf_in_area cfg hw hh hpc s.bunchBuffer hbuf q hq
      · simp [bunch, hin, hb] at hq
  · have hfalse : inProjectionArea (normalize cfg c) = false := by simpa using hin
    by_cases hb : 0 < s.bunchBuffer.length
    · have hq2 : (calcBunchAvarage cfg { s with prevCoord := c }).1 = some q := by
        simpa [bunch, hfalse, hb] using hq
      rw [calcBunchAvarage_fst] at hq2
      exact bunchAverageOf_in_area cfg hw hh hpc s.bunchBuffer hbuf q hq2
    · simp [bunch, hfalse, hb] at hq

theorem bunchRun_emits_in_area (cfg : Config) (hw : 0 < cfg.projectionAreaSize.1)
    (hh : 0 < cfg.projectionAreaSize.2) (hpc : 1 ≤ cfg.bunchPrecisionCount)
    (calls : List (Point × DataPlace)) (s : ClusterState)
    (hbuf : ∀ p ∈ s.bunchBuffer, inProjectionArea (normalize cfg p) = true)
    (q : Point) (hq : some q ∈ (bunchRun cfg s calls).1) :
    inProjectionArea (normalize cfg q) = true := by
  induction calls generalizing s with
  | nil => simp [bunchRun] at hq
  | cons x rest ih =>
    rcases x with ⟨c, dp⟩
    simp only [bunchRun, List.mem_cons] at hq
    rcases hq with hq | hq
    · exact bunch_emit_in_area cfg hw hh hpc c dp s hbuf q hq.symm
    · exact ih (bunch cfg c dp s).2 (bunch_preserves_in_area cfg c dp s hbuf) hq

/-- C10: with a positive projection area and precision count at least 1, every
centroid ever emitted by `bunch` over any call sequence from the initial state
itself lies in the projection area: only in-area points enter the buffer, and
the per-axis mean of in-area points is in-area. -/
theorem C10_centroids_in_area (cfg : Config) (hw : 0 < cfg.projectionAreaSize.1)
    (hh : 0 < cfg.projectionAreaSize.2) (hpc : 1 ≤ cfg.bunchPrecisionCount)
    (calls : List (Point × DataPlace)) (q : Point)
    (hq : some q ∈ (bunchRun cfg initState calls).1) :
    inProjectionArea (normalize cfg q) = true :=
  bunchRun_emits_in_area cfg hw hh hpc calls initState (by simp [initState]) q hq

/-- Witness for C10: a two-call run with precision count 1 that emits the
centroid (0, 0), shown in-area by the theorem. -/
theorem C10_centroids_in_area_witness :
    inProjectionArea (normalize { cfgEx with bunchPrecisionCount := 1 } (0, 0)) = true :=
  C10_centroids_in_area { cfgEx with bunchPrecisionCount := 1 }
    (by norm_num [cfgEx]) (by norm_num [cfgEx]) (by norm_num [cfgEx])
    [((0, 0), .first), ((5, 5), .middle)] (0, 0)
    (by norm_num [bunchRun, bunch, normalize, inProjectionArea, calcBunchAvarage, cfgEx,
      initState])

end SensorUtil
